import Mathlib

/-!
# Verification of cppthread core components

Shallow embedding of the cppthread library (mutex, fifo, item_with_predicate,
thread, worker, pool) together with proofs of the specified properties.

Conventions of the embedding:
* Every public operation runs under the recursive mutex of the object in the
  source, so an operation is modelled as a pure state transformer.
* A C++ method that may `throw` is modelled as returning
  `Option cterr × State`: `(some e, s)` means the exception `e` was raised
  and, because the throw happens before any mutation, `s` is the unchanged
  state.
* A suspension point (`wait` / `timed_wait` inside `fifo::pop_front`) consumes
  one `waitEvent`: the batch of operations other threads performed while the
  mutex was released, plus whether the wait was signalled or timed out.
  An exhausted event list with an unbounded wait means the call never returns.
-/

set_option linter.unusedVariables false

namespace Cppthread

/-- Error kinds raised by the core (exception taxonomy of the library). -/
inductive cterr where
  | invalid_error
  | not_locked_error
  | in_use_error
deriving DecidableEq, Repr

/-! ## fifo<T>  (src/cppthread/fifo.h)

State of a `fifo<T>`: the queue `f_queue` (insertion order), the `f_done`
flag and the `f_broadcast` flag, exactly as in the source.  In addition we
count the condition-variable `broadcast()` calls so that the
"at most one broadcast" properties can be stated. -/

structure fifoState (α : Type) where
  f_queue : List α
  f_done : Bool
  f_broadcast : Bool
  broadcasts : Nat
deriving DecidableEq, Repr

/-- A freshly constructed fifo: empty queue, both flags false. -/
def fifoInit (α : Type) : fifoState α := ⟨[], false, false, 0⟩

/-- Source `fifo::push_back(v)`: rejected (returns false) when `f_done` is set,
otherwise appends `v` and emits a `signal()` (signals are not counted by
`broadcasts`, which only counts `broadcast()` calls). -/
def push_back (s : fifoState α) (v : α) : Bool × fifoState α :=
  if s.f_done then (false, s)
  else (true, { s with f_queue := s.f_queue ++ [v] })

/-- Source `fifo::done(clear)`: sets `f_done`, optionally clears the queue, and —
whenever the resulting queue is empty — calls `broadcast()` and sets
`f_broadcast`.  Note that the source does **not** test `f_broadcast` here. -/
def fifo_done (s : fifoState α) (clear : Bool) : fifoState α :=
  let s1 : fifoState α := { s with f_done := true }
  let s2 : fifoState α := if clear then { s1 with f_queue := [] } else s1
  if s2.f_queue.isEmpty then
    { s2 with broadcasts := s2.broadcasts + 1, f_broadcast := true }
  else
    s2

/-- Source `fifo::clear()`: discard all items. -/
def fifo_clear (s : fifoState α) : fifoState α := { s with f_queue := [] }

/-- Source `fifo::is_done()`. -/
def is_done (s : fifoState α) : Bool := s.f_done

/-- The `cleanup` lambda inside `fifo::pop_front`: broadcast once (guarded by
`f_broadcast`) when the fifo is done and the queue is empty. -/
def clean_up (s : fifoState α) : fifoState α :=
  if s.f_done && !s.f_broadcast && s.f_queue.isEmpty then
    { s with broadcasts := s.broadcasts + 1, f_broadcast := true }
  else
    s

/-- The scan loop of `fifo::pop_front`: walk the queue in insertion order and
remove the first item whose `validate_item` predicate returns true, returning
the item and the remaining queue. -/
def findValid (pred : α → Bool) : List α → Option (α × List α)
  | [] => none
  | x :: xs =>
    if pred x then some (x, xs)
    else
      match findValid pred xs with
      | some (v, rest) => some (v, x :: rest)
      | none => none

/-- An operation another thread performs on the fifo while `pop_front` is
suspended in `wait()` / `timed_wait()` (the mutex is released there). -/
inductive envOp (α : Type) where
  | push (v : α)
  | mark_done (clear : Bool)
deriving DecidableEq, Repr

/-- Apply one environment operation (the other thread runs the full
`push_back` resp. `done` member function). -/
def applyEnvOp (s : fifoState α) : envOp α → fifoState α
  | .push v => (push_back s v).2
  | .mark_done c => fifo_done s c

/-- Apply a batch of environment operations in order. -/
def applyEnvOps (s : fifoState α) : List (envOp α) → fifoState α
  | [] => s
  | op :: ops => applyEnvOps (applyEnvOp s op) ops

/-- One wake-up of a suspended `pop_front`: the operations performed by other
threads during the wait, and whether the wait was signalled (`signaled =
true`) or — for `timed_wait` — expired (`signaled = false`). -/
structure waitEvent (α : Type) where
  ops : List (envOp α)
  signaled : Bool
deriving DecidableEq, Repr

/-- Result of a `pop_front` call.  `ret = some b` means the call returned
`b`; `ret = none` means the call is suspended in `wait()` with no further
wake-up ever arriving (it never returns).  `v` is the value of the output variable of the caller afterwards (`v` is only assigned on success). -/
structure popResult (α : Type) where
  ret : Option Bool
  v : α
  s : fifoState α
deriving DecidableEq, Repr

/-- Source `fifo::pop_front(v, usecs)`: loop forever — scan for the first valid
item (return true after `cleanup` when found); otherwise break when
`f_done`; otherwise wait according to `usecs`: `-1` waits for a signal,
`> 0` performs a `timed_wait` (break on expiry), and anything else
(`0`, but also every other negative value) breaks immediately.  On break the
call runs `cleanup` and returns false, leaving `v` untouched. -/
def pop_front (pred : α → Bool) (usecs : Int) :
    List (waitEvent α) → α → fifoState α → popResult α
  | evs, v, s =>
    match findValid pred s.f_queue with
    | some (x, rest) => ⟨some true, x, clean_up { s with f_queue := rest }⟩
    | none =>
      if s.f_done then ⟨some false, v, clean_up s⟩
      else if usecs = -1 then
        match evs with
        | [] => ⟨none, v, s⟩
        | e :: es => pop_front pred usecs es v (applyEnvOps s e.ops)
      else if usecs > 0 then
        match evs with
        | [] => ⟨some false, v, clean_up s⟩
        | e :: es =>
          if e.signaled then pop_front pred usecs es v (applyEnvOps s e.ops)
          else ⟨some false, v, clean_up (applyEnvOps s e.ops)⟩
      else ⟨some false, v, clean_up s⟩

/-! ## mutex  (src/cppthread/mutex.cpp)

The mutex is recursive; `f_reference_count` is its lock depth.  From the
point of view of the owning thread, `lock()` always succeeds and increments
the depth; `unlock()` throws `not_locked_error` when the depth is zero
(before any mutation) and otherwise decrements it. -/

/-- Source `mutex::lock()`: increments `f_reference_count`. -/
def mutex_lock (depth : Nat) : Nat := depth + 1

/-- Source `mutex::unlock()`: raises `not_locked_error` when the depth is `0`
(state untouched), otherwise decrements the depth. -/
def mutex_unlock (depth : Nat) : Option cterr × Nat :=
  if depth = 0 then (some .not_locked_error, depth)
  else (none, depth - 1)

/-- Model of `n` consecutive `lock()` calls. -/
def lockN : Nat → Nat → Nat
  | 0, d => d
  | n + 1, d => lockN n (mutex_lock d)

/-- Model of `n` consecutive `unlock()` calls; stops at the first raised exception. -/
def unlockN : Nat → Nat → Option cterr × Nat
  | 0, d => (none, d)
  | n + 1, d =>
    match mutex_unlock d with
    | (none, d2) => unlockN n d2
    | (some e, d2) => (some e, d2)

/-! ## item_with_predicate  (src/cppthread/item_with_predicate.cpp)

Dependencies are weak pointers to other items; whether a given dependency
has expired is decided by the environment, modelled as an oracle
`expired : Nat → Bool` over dependency identities. -/

structure item_with_predicate where
  f_dependencies : List Nat
  f_processing : Bool
deriving DecidableEq, Repr

/-- Source `item_with_predicate::valid_workload()`: under the mutex of the item, erase
every expired dependency (order preserved); if the list is then empty, set
`f_processing := true` and return true, otherwise return false. -/
def valid_workload (expired : Nat → Bool) (it : item_with_predicate) :
    Bool × item_with_predicate :=
  let deps := it.f_dependencies.filter (fun d => !expired d)
  if deps.isEmpty then (true, ⟨deps, true⟩)
  else (false, ⟨deps, it.f_processing⟩)

/-- Source `item_with_predicate::add_dependency(item)`: raises `in_use_error` when
`f_processing` is set (before any mutation), otherwise appends the
dependency. -/
def add_dependency (it : item_with_predicate) (d : Nat) :
    Option cterr × item_with_predicate :=
  if it.f_processing then (some .in_use_error, it)
  else (none, ⟨it.f_dependencies ++ [d], it.f_processing⟩)

/-- Source `item_with_predicate::add_dependencies(list)`: raises `in_use_error` when
`f_processing` is set, otherwise inserts the batch at the front of the
dependency list (the source inserts at `begin()`). -/
def add_dependencies (it : item_with_predicate) (ds : List Nat) :
    Option cterr × item_with_predicate :=
  if it.f_processing then (some .in_use_error, it)
  else (none, ⟨ds ++ it.f_dependencies, it.f_processing⟩)

/-! ## thread  (src/cppthread/thread.cpp)

Exception objects are abstracted by a type `ε`; the captured-exception slot
`f_exception` is an `Option ε` (`none` models the null `std::exception_ptr`).
One run cycle of the spawned thread is determined by which of the three
runner callbacks throw. -/

/-- The `leave_status_t` enumeration of runner.h. -/
inductive leave_status_t where
  | normal
  | initialization_failed
  | thread_failed
  | instrumentation
deriving DecidableEq, Repr

/-- Source `thread::internal_enter()`: calls `runner::enter()`; on a recognized
exception stores it in the slot (unconditional assignment in the source),
logs, and returns false. -/
def internal_enter (enter_ex : Option ε) (slot : Option ε) :
    Bool × Option ε :=
  match enter_ex with
  | none => (true, slot)
  | some e => (false, some e)

/-- Source `thread::internal_run()`: calls `runner::run()`; same capture behaviour
as `internal_enter`. -/
def internal_run (run_ex : Option ε) (slot : Option ε) :
    Bool × Option ε :=
  match run_ex with
  | none => (true, slot)
  | some e => (false, some e)

/-- Source `thread::internal_leave(status)`: calls `runner::leave(status)`; on a
recognized exception stores it **only when the slot is empty** (the earlier
capture from `internal_enter` / `internal_run` has priority), otherwise the
exception is only logged. -/
def internal_leave (leave_ex : Option ε) (slot : Option ε) : Option ε :=
  match leave_ex with
  | none => slot
  | some e =>
    match slot with
    | none => some e
    | some e0 => some e0

/-- One run cycle of a thread, as determined by which callbacks throw:
`enter_ex` / `run_ex` are the recognized exception each callback would
raise (`none`: it returns normally); `leave_ex status` likewise for
`runner::leave(status)`. -/
structure runCycle (ε : Type) where
  enter_ex : Option ε
  run_ex : Option ε
  leave_ex : leave_status_t → Option ε

/-- The body of `thread::internal_thread()` from `internal_enter` on: the
slot starts out empty (`start()` cleared it); `run()` happens only when
`enter()` succeeded; `leave(status)` always runs, with the status chosen by
the source.  Returns the final slot and the status passed to `leave`. -/
def internal_thread_cycle (c : runCycle ε) : Option ε × leave_status_t :=
  let slot0 : Option ε := none
  match internal_enter c.enter_ex slot0 with
  | (true, slot1) =>
    match internal_run c.run_ex slot1 with
    | (true, slot2) =>
      (internal_leave (c.leave_ex .normal) slot2, .normal)
    | (false, slot2) =>
      (internal_leave (c.leave_ex .thread_failed) slot2, .thread_failed)
  | (false, slot1) =>
    (internal_leave (c.leave_ex .initialization_failed) slot1,
     .initialization_failed)

/-- The mutable flags and the exception slot of a `thread` object. -/
structure threadState (ε : Type) where
  f_running : Bool
  f_started : Bool
  f_stopping : Bool
  f_exception : Option ε
deriving DecidableEq, Repr

/-- What a call to `thread::stop()` did: returned at once with nothing to
join, or joined the OS thread and possibly re-threw a captured exception. -/
inductive stopAction (ε : Type) where
  | no_join
  | joined (thrown : Option ε)
deriving DecidableEq, Repr

/-- Source `thread::stop(callback)`, called after the spawned thread has finished its run
cycle: return immediately when neither `f_running` nor `f_started`;
otherwise set `f_stopping`, join, clear all three flags, and — when the
slot holds an exception — swap it out (leaving the slot null) and re-throw
it to the caller. -/
def thread_stop (s : threadState ε) : stopAction ε × threadState ε :=
  if !s.f_running && !s.f_started then (.no_join, s)
  else
    let s1 : threadState ε :=
      { s with f_running := false, f_started := false, f_stopping := false }
    match s1.f_exception with
    | some e => (.joined (some e), { s1 with f_exception := none })
    | none => (.joined none, s1)

/-- Source `thread::get_exception()`. -/
def get_exception (s : threadState ε) : Option ε := s.f_exception

/-- The state of a `thread` right after its run cycle completed (the
trampoline cleared `f_running`; `f_started` is still set; the slot holds
whatever the cycle captured), before anyone called `stop()`. -/
def finishedThread (ex : Option ε) : threadState ε :=
  { f_running := false, f_started := true, f_stopping := false
  , f_exception := ex }

/-! ## worker<T>  (src/cppthread/worker.h)

`f_in` and `f_out` are `std::shared_ptr` to fifos, modelled as
`Option (fifoState α)` (`none` is the null pointer).  The constructor is a
bare member-initializer list. -/

structure workerState (α : Type) where
  f_in : Option (fifoState α)
  f_out : Option (fifoState α)
  f_position : Nat
  f_working : Bool
  f_runs : Nat
deriving DecidableEq, Repr

/-- The `worker<T>` constructor: stores the name, position and the two fifo
pointers.  The source performs **no** validation, so no exception can be
raised. -/
def worker_mk (name : String) (position : Nat)
    (inp out : Option (fifoState α)) :
    Option cterr × workerState α :=
  (none, ⟨inp, out, position, false, 0⟩)

/-- What the tail of one `worker::run()` iteration does with the popped
workload, given the result of `do_work()`.  The source runs
`if(do_work()) { f_out->push_back(f_workload); }` with no null test on
`f_out`, so a true `do_work()` with a null output fifo dereferences the
null pointer (undefined behaviour, modelled as `null_dereference`). -/
inductive workAction (α : Type) where
  | forwarded (out : fifoState α)
  | dropped
  | null_dereference
deriving DecidableEq, Repr

/-- The post-`do_work()` step of a `worker::run()` iteration. -/
def worker_after_work (produced : Bool) (f_out : Option (fifoState α))
    (workload : α) : workAction α :=
  if produced then
    match f_out with
    | some o => .forwarded (push_back o workload).2
    | none => .null_dereference
  else .dropped

/-! ## pool<W>  (src/cppthread/pool.h) -/

/-- Source `pool::stop(immediate)`: calls `done(immediate)` on the input fifo only
when that fifo is not already done. -/
def pool_stop (f_in : fifoState α) (immediate : Bool) : fifoState α :=
  if is_done f_in then f_in else fifo_done f_in immediate

/-! ## Helper lemmas -/

/-- Calling `done` always leaves the `f_done` flag set. -/
theorem fifo_done_f_done (s : fifoState α) (c : Bool) :
    (fifo_done s c).f_done = true := by
  simp only [fifo_done]
  split_ifs <;> rfl

/-- The queue after `done(clear)` is empty when `clear` is requested and
untouched otherwise. -/
theorem fifo_done_f_queue (s : fifoState α) (c : Bool) :
    (fifo_done s c).f_queue = if c then [] else s.f_queue := by
  simp only [fifo_done]
  split_ifs <;> simp_all

/-- The broadcast counter after `done` rises exactly when the resulting
queue is empty, regardless of the `f_broadcast` flag. -/
theorem fifo_done_broadcasts (s : fifoState α) (c : Bool) :
    (fifo_done s c).broadcasts =
      s.broadcasts + (if c ∨ s.f_queue.isEmpty then 1 else 0) := by
  simp only [fifo_done]
  split_ifs <;> simp_all

/-- Characterisation of a successful scan: the returned item is the first
one in insertion order that satisfies the predicate, and it is removed. -/
theorem findValid_some_spec (pred : α → Bool) :
    ∀ (q : List α) (x : α) (rest : List α),
      findValid pred q = some (x, rest) →
      ∃ l1 l2, q = l1 ++ x :: l2 ∧ rest = l1 ++ l2 ∧
        (∀ y ∈ l1, pred y = false) ∧ pred x = true
  | [], x, rest => by simp [findValid]
  | a :: as, x, rest => by
    intro h
    simp only [findValid] at h
    by_cases ha : pred a
    · rw [if_pos ha] at h
      obtain ⟨rfl, rfl⟩ : a = x ∧ as = rest := by
        simpa using h
      exact ⟨[], as, by simp, by simp, by simp, ha⟩
    · rw [if_neg ha] at h
      cases hr : findValid pred as with
      | none => rw [hr] at h; exact absurd h (by simp)
      | some p =>
        obtain ⟨w, rest2⟩ := p
        rw [hr] at h
        simp only [Option.some.injEq, Prod.mk.injEq] at h
        obtain ⟨h1, h2⟩ := h
        subst h1
        subst h2
        obtain ⟨l1, l2, hq, hrest, hl1, hpx⟩ :=
          findValid_some_spec pred as w rest2 hr
        refine ⟨a :: l1, l2, by simp [hq], by simp [hrest], ?_, hpx⟩
        intro y hy
        rw [List.mem_cons] at hy
        rcases hy with rfl | hy
        · simpa using ha
        · exact hl1 y hy

/-- A failed scan means no queued item satisfies the predicate. -/
theorem findValid_none_forall (pred : α → Bool) :
    ∀ q : List α, findValid pred q = none → ∀ x ∈ q, pred x = false
  | [] => by simp
  | a :: as => by
    intro h x hx
    simp only [findValid] at h
    by_cases ha : pred a
    · rw [if_pos ha] at h; exact absurd h (by simp)
    · rw [if_neg ha] at h
      cases hr : findValid pred as with
      | some p => rw [hr] at h; exact absurd h (by simp)
      | none =>
        rw [List.mem_cons] at hx
        rcases hx with rfl | hx
        · simpa using ha
        · exact findValid_none_forall pred as hr x hx

/-- When some queued item satisfies the predicate the scan succeeds. -/
theorem findValid_isSome (pred : α → Bool) (q : List α)
    (h : ∃ x ∈ q, pred x = true) :
    ∃ x rest, findValid pred q = some (x, rest) := by
  cases hr : findValid pred q with
  | none =>
    obtain ⟨x, hx, hpx⟩ := h
    have := findValid_none_forall pred q hr x hx
    rw [hpx] at this
    exact absurd this (by simp)
  | some p => exact ⟨p.1, p.2, rfl⟩

/-- Appending a valid item to a queue with no valid item makes the scan
return exactly that item, with the original queue as remainder. -/
theorem findValid_append_ready (pred : α → Bool) (x : α) (hx : pred x = true) :
    ∀ q : List α, findValid pred q = none →
      findValid pred (q ++ [x]) = some (x, q)
  | [] => by intro h; simp [findValid, hx]
  | a :: as => by
    intro h
    simp only [findValid, List.cons_append, List.append_eq] at h ⊢
    by_cases ha : pred a
    · rw [if_pos ha] at h; exact absurd h (by simp)
    · rw [if_neg ha] at h ⊢
      cases hr : findValid pred as with
      | some p => rw [hr] at h; exact absurd h (by simp)
      | none => rw [findValid_append_ready pred x hx as hr]

/-- The output variable of `pop_front` keeps its initial value unless the
call returns true. -/
theorem pop_front_v_unchanged (pred : α → Bool) (usecs : Int)
    (evs : List (waitEvent α)) (v : α) (s : fifoState α)
    (h : (pop_front pred usecs evs v s).ret ≠ some true) :
    (pop_front pred usecs evs v s).v = v := by
  induction evs generalizing s with
  | nil =>
    rw [pop_front] at h ⊢
    cases hf : findValid pred s.f_queue with
    | some p =>
      obtain ⟨x, rest⟩ := p
      rw [hf] at h
      exact absurd rfl h
    | none =>
      rw [hf] at h
      dsimp only at h ⊢
      by_cases hd : s.f_done = true
      · rw [if_pos hd]
      · rw [if_neg hd]
        by_cases h1 : usecs = -1
        · rw [if_pos h1]
        · rw [if_neg h1]
          by_cases h2 : usecs > 0
          · rw [if_pos h2]
          · rw [if_neg h2]
  | cons e es ih =>
    rw [pop_front] at h ⊢
    cases hf : findValid pred s.f_queue with
    | some p =>
      obtain ⟨x, rest⟩ := p
      rw [hf] at h
      exact absurd rfl h
    | none =>
      rw [hf] at h
      dsimp only at h ⊢
      by_cases hd : s.f_done = true
      · rw [if_pos hd]
      · rw [if_neg hd] at h ⊢
        by_cases h1 : usecs = -1
        · rw [if_pos h1] at h ⊢
          exact ih _ h
        · rw [if_neg h1] at h ⊢
          by_cases h2 : usecs > 0
          · rw [if_pos h2] at h ⊢
            by_cases hs : e.signaled = true
            · rw [if_pos hs] at h ⊢
              exact ih _ h
            · rw [if_neg hs] at h ⊢
          · rw [if_neg h2] at h ⊢

/-- Applying `lockN` adds `n` to the depth. -/
theorem lockN_add (n d : Nat) : lockN n d = d + n := by
  induction n generalizing d with
  | zero => rfl
  | succ m ih =>
    rw [lockN, mutex_lock, ih]
    omega

/-- Unlocking `n` times from depth `d + n` succeeds and lands on depth `d`. -/
theorem unlockN_add (n d : Nat) : unlockN n (d + n) = (none, d) := by
  induction n generalizing d with
  | zero => rfl
  | succ m ih =>
    have hx : d + (m + 1) = d + m + 1 := by omega
    rw [hx, unlockN]
    have hm : mutex_unlock (d + m + 1) = (none, d + m) := by
      simp [mutex_unlock]
    rw [hm]
    exact ih d

/-! ## Claim theorems -/

/-- C5: for every mutex and every N, a sequence of N `lock()` calls followed
by N `unlock()` calls succeeds and returns the lock depth to 0; calling
`unlock()` at depth 0 raises `not_locked_error` and leaves the depth at 0. -/
theorem mutex_balanced_and_underflow (n : Nat) :
    unlockN n (lockN n 0) = (none, 0) ∧
    mutex_unlock 0 = (some cterr.not_locked_error, 0) := by
  constructor
  · rw [lockN_add]
    exact unlockN_add n 0
  · rfl

/-- C1 (code evaluation at the failing input): after `done()` every
`push_back` is rejected with the queue unchanged, but calling `done(false)`
twice on an empty fifo emits the empty-and-done broadcast twice — the
source `done()` never consults `f_broadcast`, contradicting the documented
at-most-one-broadcast behaviour. -/
theorem fifo_done_twice_double_broadcast :
    push_back (fifo_done (fifoInit Nat) false) 3 =
      (false, fifo_done (fifoInit Nat) false) ∧
    (fifo_done (fifo_done (fifoInit Nat) false) false).broadcasts = 2 ∧
    ¬ (fifo_done (fifo_done (fifoInit Nat) false) false).broadcasts ≤ 1 := by
  refine ⟨by decide, by decide, by decide⟩

/-- C10: `pool::stop` calls `done` on the input fifo only when the fifo is
not already done, so a second `stop` leaves the fifo unchanged and
`stop(true)` after `stop(false)` does not clear the remaining items. -/
theorem pool_stop_second_noop (s : fifoState α) (b1 b2 : Bool) :
    (is_done s = true → pool_stop s b1 = s) ∧
    pool_stop (pool_stop s b1) b2 = pool_stop s b1 ∧
    (pool_stop (pool_stop s false) true).f_queue = s.f_queue := by
  refine ⟨?_, ?_, ?_⟩
  · intro h
    have h2 : s.f_done = true := h
    simp [pool_stop, is_done, h2]
  · by_cases h : s.f_done = true
    · simp [pool_stop, is_done, h]
    · simp [pool_stop, is_done, h, fifo_done_f_done]
  · by_cases h : s.f_done = true
    · simp [pool_stop, is_done, h]
    · simp [pool_stop, is_done, h, fifo_done_f_done, fifo_done_f_queue]

/-- Witness for C10 at a concrete already-done fifo. -/
theorem pool_stop_second_noop_witness :
    is_done (fifo_done (fifoInit Nat) false) = true ∧
    pool_stop (fifo_done (fifoInit Nat) false) true =
      fifo_done (fifoInit Nat) false :=
  ⟨by decide,
   (pool_stop_second_noop (fifo_done (fifoInit Nat) false) true false).1
     (by decide)⟩

/-- C3: at most one exception is captured per run cycle — the slot holds the
first exception in the priority order enter, then run, then leave — and an
exception raised by `leave()` while the slot is occupied never replaces the
stored one. -/
theorem exception_capture_priority (c : runCycle ε) (e0 e1 : ε) :
    (internal_thread_cycle c).1 =
      (match c.enter_ex with
       | some e => some e
       | none =>
         match c.run_ex with
         | some e => some e
         | none => c.leave_ex leave_status_t.normal) ∧
    internal_leave (some e1) (some e0) = some e0 := by
  constructor
  · obtain ⟨en, ru, le⟩ := c
    cases en with
    | some e =>
      rcases h : le leave_status_t.initialization_failed with _ | e2 <;>
        simp [internal_thread_cycle, internal_enter, internal_run,
          internal_leave, h]
    | none =>
      cases ru with
      | some e =>
        rcases h : le leave_status_t.thread_failed with _ | e2 <;>
          simp [internal_thread_cycle, internal_enter, internal_run,
            internal_leave, h]
      | none =>
        rcases h : le leave_status_t.normal with _ | e2 <;>
          simp [internal_thread_cycle, internal_enter, internal_run,
            internal_leave, h]
  · rfl

/-- C4: when the runner captured an exception, `stop()` re-throws it to the
joining caller and clears the slot (`get_exception` then returns null), and
a second `stop()` after a completed one returns immediately with no join,
no throw and no state change. -/
theorem thread_stop_rethrow_clear_idempotent (e : ε) (s : threadState ε)
    (hs : s.f_started = true) (hex : s.f_exception = some e) :
    (thread_stop s).1 = stopAction.joined (some e) ∧
    get_exception (thread_stop s).2 = none ∧
    thread_stop (thread_stop s).2 = (stopAction.no_join, (thread_stop s).2) := by
  have hcond : (!s.f_running && !s.f_started) = false := by
    rw [hs]
    simp
  refine ⟨?_, ?_, ?_⟩ <;>
    simp [thread_stop, get_exception, hcond, hex]

/-- Witness for C4 at a finished thread carrying exception 7. -/
theorem thread_stop_rethrow_witness :
    (finishedThread (some 7) : threadState Nat).f_started = true ∧
    (thread_stop (finishedThread (some 7) : threadState Nat)).1 =
      stopAction.joined (some 7) :=
  ⟨rfl,
   (thread_stop_rethrow_clear_idempotent 7 (finishedThread (some 7))
     rfl rfl).1⟩

/-- C6: once `valid_workload()` has returned true, every later call returns
true again (whatever has expired meanwhile) and leaves the item unchanged,
and both `add_dependency` and `add_dependencies` raise `in_use_error`
leaving the dependency list unchanged. -/
theorem item_valid_workload_permanent (expired expired2 : Nat → Bool)
    (it : item_with_predicate) (d : Nat) (ds : List Nat)
    (h : (valid_workload expired it).1 = true) :
    (valid_workload expired2 (valid_workload expired it).2).1 = true ∧
    (valid_workload expired2 (valid_workload expired it).2).2 =
      (valid_workload expired it).2 ∧
    add_dependency (valid_workload expired it).2 d =
      (some cterr.in_use_error, (valid_workload expired it).2) ∧
    add_dependencies (valid_workload expired it).2 ds =
      (some cterr.in_use_error, (valid_workload expired it).2) := by
  by_cases hd : (it.f_dependencies.filter (fun x => !expired x)).isEmpty = true
  · have hnil : it.f_dependencies.filter (fun x => !expired x) = [] :=
      List.isEmpty_iff.mp hd
    simp [valid_workload, hd, hnil, add_dependency, add_dependencies]
  · simp [valid_workload, hd] at h

/-- Witness for C6 at an item whose single dependency has expired. -/
theorem item_valid_workload_witness :
    (valid_workload (fun _ => true) ⟨[3], false⟩).1 = true ∧
    (valid_workload (fun _ => false)
        (valid_workload (fun _ => true) ⟨[3], false⟩).2).1 = true :=
  ⟨by decide,
   (item_valid_workload_permanent (fun _ => true) (fun _ => false)
     ⟨[3], false⟩ 7 [1, 2] (by decide)).1⟩

/-- C8 (code evaluation at the failing input): after a successful pop, a
true `do_work()` with a null output fifo dereferences the null pointer
instead of dropping the workload; a false `do_work()` drops it, and a true
`do_work()` with a non-null output fifo forwards it. -/
theorem worker_null_out_dereference :
    worker_after_work true (none : Option (fifoState Nat)) 5 =
      workAction.null_dereference ∧
    worker_after_work false (none : Option (fifoState Nat)) 5 =
      workAction.dropped ∧
    worker_after_work true (some (fifoInit Nat)) 5 =
      workAction.forwarded (push_back (fifoInit Nat) 5).2 :=
  ⟨rfl, rfl, rfl⟩

/-- C9 counterexample: constructing a worker with a null input fifo pointer
does not raise `invalid_error` — the constructor returns normally. -/
theorem worker_mk_null_in_no_throw :
    (worker_mk "w" 0 (none : Option (fifoState Nat)) none).1 ≠
      some cterr.invalid_error ∧
    (worker_mk "w" 0 (none : Option (fifoState Nat)) none).1 = none :=
  ⟨by decide, rfl⟩

/-- C9 amended: the worker constructor performs no validation at all — it
raises nothing for any combination of fifo pointers (null input included)
and stores the pointers as given. -/
theorem worker_mk_no_validation (name : String) (position : Nat)
    (inp out : Option (fifoState α)) :
    (worker_mk name position inp out).1 = none ∧
    (worker_mk name position inp out).2 = ⟨inp, out, position, false, 0⟩ :=
  ⟨rfl, rfl⟩

/-- C2: whenever some queued item satisfies the predicate, `pop_front`
removes the first such item in insertion order, assigns it to the output
variable, runs `cleanup` and returns true; whenever the call returns false,
the output variable still holds exactly the value it had before the call. -/
theorem pop_front_first_valid_and_out_preserved (pred : α → Bool)
    (usecs : Int) (evs : List (waitEvent α)) (v0 : α) (s : fifoState α) :
    ((∃ x ∈ s.f_queue, pred x = true) →
      ∃ l1 x l2, s.f_queue = l1 ++ x :: l2 ∧
        (∀ y ∈ l1, pred y = false) ∧ pred x = true ∧
        pop_front pred usecs evs v0 s =
          ⟨some true, x, clean_up { s with f_queue := l1 ++ l2 }⟩) ∧
    ((pop_front pred usecs evs v0 s).ret = some false →
      (pop_front pred usecs evs v0 s).v = v0) := by
  constructor
  · intro h
    obtain ⟨x, rest, hf⟩ := findValid_isSome pred s.f_queue h
    obtain ⟨l1, l2, hq, hrest, hl1, hx⟩ :=
      findValid_some_spec pred s.f_queue x rest hf
    refine ⟨l1, x, l2, hq, hl1, hx, ?_⟩
    cases evs <;> rw [pop_front, hf, hrest]
  · intro h
    refine pop_front_v_unchanged pred usecs evs v0 s ?_
    rw [h]
    simp

/-- Witness for C2: the fifo holding [4, 5] under the predicate "equals 5"
pops 5 and leaves 4 queued. -/
theorem pop_front_first_valid_witness :
    (∃ x ∈ ([4, 5] : List Nat), (fun y => y == 5) x = true) ∧
    (∃ l1 x l2, ([4, 5] : List Nat) = l1 ++ x :: l2 ∧
      (∀ y ∈ l1, (fun y => y == 5) y = false) ∧ (fun y => y == 5) x = true ∧
      pop_front (fun y => y == 5) 0 [] 0 ⟨[4, 5], false, false, 0⟩ =
        ⟨some true, x, clean_up ⟨l1 ++ l2, false, false, 0⟩⟩) :=
  ⟨by decide,
   (pop_front_first_valid_and_out_preserved (fun y => y == 5) 0 [] 0
     ⟨[4, 5], false, false, 0⟩).1 (by decide)⟩

/-- C7 counterexample: on an empty, not-done fifo and with a wake-up
available that would deliver a valid item, `pop_front` with timeout −2
returns false immediately — it neither waits nor pops — while the very same
call with timeout −1 consumes the wake-up and pops the pushed item. -/
theorem pop_front_negative_two_returns :
    pop_front (fun _ : Nat => true) (-2) [⟨[envOp.push 5], true⟩] 0
      (fifoInit Nat) = ⟨some false, 0, fifoInit Nat⟩ ∧
    (pop_front (fun _ : Nat => true) (-2) [⟨[envOp.push 5], true⟩] 0
      (fifoInit Nat)).ret ≠ none ∧
    pop_front (fun _ : Nat => true) (-1) [⟨[envOp.push 5], true⟩] 0
      (fifoInit Nat) = ⟨some true, 5, fifoInit Nat⟩ :=
  ⟨by decide, by decide, by decide⟩

/-- C7 amended: on a fifo with no valid item and `done` not set, only the
timeout value −1 waits indefinitely: such a call does not return while
nothing happens, returns true with the pushed item once a push delivers a
valid one, and returns false once `done` is set; every other negative
timeout falls into the non-waiting branch and returns false immediately. -/
theorem pop_front_minus_one_waits (pred : α → Bool) (v0 x : α)
    (s : fifoState α) (c : Bool) (usecs : Int)
    (hq : findValid pred s.f_queue = none) (hd : s.f_done = false)
    (hx : pred x = true) (hu : usecs < 0) (hne : usecs ≠ -1) :
    (pop_front pred (-1) [] v0 s).ret = none ∧
    pop_front pred (-1) [⟨[envOp.push x], true⟩] v0 s =
      ⟨some true, x, clean_up s⟩ ∧
    (pop_front pred (-1) [⟨[envOp.mark_done c], true⟩] v0 s).ret =
      some false ∧
    (∀ evs, pop_front pred usecs evs v0 s = ⟨some false, v0, clean_up s⟩) := by
  have hdn : ¬ s.f_done = true := by simp [hd]
  have hgt : ¬ usecs > 0 := by omega
  refine ⟨?_, ?_, ?_, ?_⟩
  · rw [pop_front, hq]
    dsimp only
    rw [if_neg hdn, if_pos rfl]
  · rw [pop_front, hq]
    dsimp only
    rw [if_neg hdn, if_pos rfl]
    have hps : applyEnvOps s [envOp.push x] =
        { s with f_queue := s.f_queue ++ [x] } := by
      simp [applyEnvOps, applyEnvOp, push_back, hd]
    rw [hps, pop_front]
    have hfv : findValid pred ({ s with f_queue := s.f_queue ++ [x] }).f_queue
        = some (x, s.f_queue) :=
      findValid_append_ready pred x hx s.f_queue hq
    rw [hfv]
  · have hae : applyEnvOps s [envOp.mark_done c] = fifo_done s c := rfl
    have hfd : findValid pred (fifo_done s c).f_queue = none := by
      rw [fifo_done_f_queue]
      cases c
      · simpa using hq
      · simp [findValid]
    rw [pop_front, hq]
    dsimp only
    rw [if_neg hdn, if_pos rfl, hae, pop_front, hfd]
    dsimp only
    rw [if_pos (fifo_done_f_done s c)]
  · intro evs
    cases evs <;>
      · rw [pop_front, hq]
        dsimp only
        rw [if_neg hdn, if_neg hne, if_neg hgt]

/-- Witness for C7 at the empty fifo with the always-true predicate and the
other negative timeout −2. -/
theorem pop_front_minus_one_waits_witness :
    findValid (fun _ : Nat => true) (fifoInit Nat).f_queue = none ∧
    (fifoInit Nat).f_done = false ∧
    ((-2 : Int) < 0) ∧ ((-2 : Int) ≠ -1) ∧
    (pop_front (fun _ : Nat => true) (-1) [] 0 (fifoInit Nat)).ret = none :=
  ⟨rfl, rfl, by decide, by decide,
   (pop_front_minus_one_waits (fun _ : Nat => true) 0 5 (fifoInit Nat)
     false (-2) rfl rfl rfl (by decide) (by decide)).1⟩

end Cppthread
